import Mathlib

/-!
# Verification of the Station 3310 cryptographic mission-storage core

Shallow embedding of the repository's `crypt.py`, `missions.py` and the
character-decoding helpers of `decode.py`.  Python strings are modelled as
`List Char`; byte strings as `List Nat` (each element a byte value).  The
AES-GCM primitive from the external `cryptography` library is modelled as an
abstract authenticated-encryption scheme (`AeadScheme`); everything the
repository itself does around it (base64 transport, nonce framing, filename
substitutions, the record state machine, the file store) is translated
directly from the source.
-/

set_option maxRecDepth 4000

namespace Station3310

/-! ## Digits and the OTP cipher (`crypt.py`) -/

/-- Value of a decimal digit character, mirroring Python `int(ch)` on a
single character: succeeds exactly on `'0'..'9'` (`none` models the
`ValueError` raised on any other character). -/
def digitVal (c : Char) : Option Nat :=
  if 48 ≤ c.toNat ∧ c.toNat ≤ 57 then some (c.toNat - 48) else none

/-- A string consisting only of decimal digit characters. -/
def IsDigitStr (s : List Char) : Prop := ∀ c ∈ s, (digitVal c).isSome = true

instance (s : List Char) : Decidable (IsDigitStr s) :=
  List.decidableBAll _ s

/-- Errors raised by the OTP functions: the explicit pad-length `ValueError`
(`"Pad is too short for this message: <padLen> < <msgLen>"`), and the
`ValueError` `int()` raises on a non-digit character. -/
inductive OtpError where
  | padTooShort (padLen msgLen : Nat)
  | badDigit
  deriving DecidableEq

/-- One step of the encryption loop body:
`encrypted_digit = (int(m_dig) + int(p_dig)) % 10`, rendered as a digit
character. -/
def encPair (m_dig p_dig : Char) : Option Char := do
  let md ← digitVal m_dig
  let pd ← digitVal p_dig
  pure (Char.ofNat (48 + (md + pd) % 10))

/-- One step of the decryption loop body:
`decrypted_digit = (int(c_dig) - int(p_dig)) % 10`, Python's `%` on a
possibly negative integer being `Int.emod`. -/
def decPair (c_dig p_dig : Char) : Option Char := do
  let cd ← digitVal c_dig
  let pd ← digitVal p_dig
  pure (Char.ofNat (48 + (((cd : Int) - (pd : Int)) % 10).toNat))

/-- The `for _, _ in zip(...)` accumulation loop shared by both OTP
functions: apply `step` to every pair, collecting the outputs in order and
propagating the first failure. -/
def otpLoop (step : Char → Char → Option Char) : List (Char × Char) → Option (List Char)
  | [] => some []
  | mp :: rest => do
    let c ← step mp.1 mp.2
    let cs ← otpLoop step rest
    pure (c :: cs)

/-- `crypt.otp_mod_encrypt(message_digits, pad_digits)`: raises when the pad
is shorter than the message, otherwise adds digit-wise mod 10 over
`zip(message_digits, pad_digits)`. -/
def otp_mod_encrypt (message_digits pad_digits : List Char) :
    Except OtpError (List Char) :=
  if pad_digits.length < message_digits.length then
    .error (.padTooShort pad_digits.length message_digits.length)
  else
    match otpLoop encPair (message_digits.zip pad_digits) with
    | some cs => .ok cs
    | none => .error .badDigit

/-- `crypt.otp_mod_decrypt(ciphertext_digits, pad_digits)`: raises when the
pad is shorter than the ciphertext, otherwise subtracts digit-wise mod 10
over `zip(ciphertext_digits, pad_digits)`. -/
def otp_mod_decrypt (ciphertext_digits pad_digits : List Char) :
    Except OtpError (List Char) :=
  if pad_digits.length < ciphertext_digits.length then
    .error (.padTooShort pad_digits.length ciphertext_digits.length)
  else
    match otpLoop decPair (ciphertext_digits.zip pad_digits) with
    | some ds => .ok ds
    | none => .error .badDigit

/-- The pure value computed for one encrypted digit (used to state what the
loop produces). -/
def encDigitChar (m_dig p_dig : Char) : Char :=
  Char.ofNat (48 + ((m_dig.toNat - 48) + (p_dig.toNat - 48)) % 10)

/-- The pure value computed for one decrypted digit. -/
def decDigitChar (c_dig p_dig : Char) : Char :=
  Char.ofNat (48 + ((((c_dig.toNat : Int) - 48) - ((p_dig.toNat : Int) - 48)) % 10).toNat)

/-! ### Supporting lemmas about digit characters -/

theorem toNat_ofNat_of_lt {n : Nat} (h : n < 55296) : (Char.ofNat n).toNat = n := by
  have hv : n.isValidChar := Or.inl h
  simp only [Char.ofNat, hv, dite_true, Char.ofNatAux, Char.toNat, UInt32.toNat]
  simp

theorem digitVal_eq_some {c : Char} (h : (digitVal c).isSome = true) :
    digitVal c = some (c.toNat - 48) ∧ 48 ≤ c.toNat ∧ c.toNat ≤ 57 := by
  unfold digitVal at h ⊢
  by_cases hb : 48 ≤ c.toNat ∧ c.toNat ≤ 57
  · simp [hb]
  · simp [hb] at h

theorem encPair_eq {m p : Char} (hm : (digitVal m).isSome = true)
    (hp : (digitVal p).isSome = true) : encPair m p = some (encDigitChar m p) := by
  obtain ⟨hm1, -, -⟩ := digitVal_eq_some hm
  obtain ⟨hp1, -, -⟩ := digitVal_eq_some hp
  simp [encPair, hm1, hp1, encDigitChar]

theorem decPair_eq {c p : Char} (hc : (digitVal c).isSome = true)
    (hp : (digitVal p).isSome = true) : decPair c p = some (decDigitChar c p) := by
  obtain ⟨hc1, hc2, hc3⟩ := digitVal_eq_some hc
  obtain ⟨hp1, hp2, hp3⟩ := digitVal_eq_some hp
  have h48c : ((c.toNat - 48 : Nat) : Int) = (c.toNat : Int) - 48 := by omega
  have h48p : ((p.toNat - 48 : Nat) : Int) = (p.toNat : Int) - 48 := by omega
  simp [decPair, hc1, hp1, decDigitChar, h48c, h48p]

theorem encDigitChar_isDigit {m p : Char} (hm : (digitVal m).isSome = true)
    (hp : (digitVal p).isSome = true) :
    (digitVal (encDigitChar m p)).isSome = true := by
  have hlt : 48 + ((m.toNat - 48) + (p.toNat - 48)) % 10 < 55296 := by omega
  have := toNat_ofNat_of_lt hlt
  unfold digitVal encDigitChar
  rw [this]
  have : ((m.toNat - 48) + (p.toNat - 48)) % 10 < 10 := Nat.mod_lt _ (by omega)
  simp
  omega

theorem decDigitChar_isDigit {c p : Char} (hc : (digitVal c).isSome = true)
    (hp : (digitVal p).isSome = true) :
    (digitVal (decDigitChar c p)).isSome = true := by
  set e : Int := (((c.toNat : Int) - 48) - ((p.toNat : Int) - 48)) % 10 with he
  have h0 : 0 ≤ e := Int.emod_nonneg _ (by omega)
  have h10 : e < 10 := Int.emod_lt_of_pos _ (by omega)
  have hlt : 48 + e.toNat < 55296 := by omega
  have := toNat_ofNat_of_lt hlt
  unfold digitVal decDigitChar
  rw [← he, this]
  simp
  omega

/-- Round trip at the level of a single digit character. -/
theorem decDigitChar_encDigitChar {m p : Char} (hm : (digitVal m).isSome = true)
    (hp : (digitVal p).isSome = true) : decDigitChar (encDigitChar m p) p = m := by
  obtain ⟨-, hm2, hm3⟩ := digitVal_eq_some hm
  obtain ⟨-, hp2, hp3⟩ := digitVal_eq_some hp
  have hlt : 48 + ((m.toNat - 48) + (p.toNat - 48)) % 10 < 55296 := by omega
  unfold decDigitChar encDigitChar
  rw [toNat_ofNat_of_lt hlt]
  have harith :
      (((((48 + ((m.toNat - 48) + (p.toNat - 48)) % 10 : Nat)) : Int) - 48) -
        ((p.toNat : Int) - 48)) % 10 = (m.toNat : Int) - 48 := by omega
  rw [harith]
  have hback : 48 + ((m.toNat : Int) - 48).toNat = m.toNat := by omega
  rw [hback, Char.ofNat_toNat]

theorem otpLoop_enc (m p : List Char) (hm : IsDigitStr m) (hp : IsDigitStr p)
    (h : m.length ≤ p.length) :
    otpLoop encPair (m.zip p) = some (List.zipWith encDigitChar m p) := by
  induction m generalizing p with
  | nil => simp [otpLoop]
  | cons c m ih =>
    cases p with
    | nil => simp at h
    | cons q p =>
      have hc : (digitVal c).isSome = true := hm c (List.mem_cons_self _ _)
      have hq : (digitVal q).isSome = true := hp q (List.mem_cons_self _ _)
      have ih' : otpLoop encPair (List.zipWith Prod.mk m p) =
          some (List.zipWith encDigitChar m p) :=
        ih p (fun x hx => hm x (List.mem_cons_of_mem _ hx))
          (fun x hx => hp x (List.mem_cons_of_mem _ hx))
          (by simpa using h)
      simp [otpLoop, encPair_eq hc hq, ih']

theorem otpLoop_dec (c p : List Char) (hc : IsDigitStr c) (hp : IsDigitStr p)
    (h : c.length ≤ p.length) :
    otpLoop decPair (c.zip p) = some (List.zipWith decDigitChar c p) := by
  induction c generalizing p with
  | nil => simp [otpLoop]
  | cons a c ih =>
    cases p with
    | nil => simp at h
    | cons q p =>
      have ha : (digitVal a).isSome = true := hc a (List.mem_cons_self _ _)
      have hq : (digitVal q).isSome = true := hp q (List.mem_cons_self _ _)
      have ih' : otpLoop decPair (List.zipWith Prod.mk c p) =
          some (List.zipWith decDigitChar c p) :=
        ih p (fun x hx => hc x (List.mem_cons_of_mem _ hx))
          (fun x hx => hp x (List.mem_cons_of_mem _ hx))
          (by simpa using h)
      simp [otpLoop, decPair_eq ha hq, ih']

theorem otp_mod_encrypt_eq (m p : List Char) (hm : IsDigitStr m) (hp : IsDigitStr p)
    (h : m.length ≤ p.length) :
    otp_mod_encrypt m p = .ok (List.zipWith encDigitChar m p) := by
  unfold otp_mod_encrypt
  rw [if_neg (by omega), otpLoop_enc m p hm hp h]

theorem otp_mod_decrypt_eq (c p : List Char) (hc : IsDigitStr c) (hp : IsDigitStr p)
    (h : c.length ≤ p.length) :
    otp_mod_decrypt c p = .ok (List.zipWith decDigitChar c p) := by
  unfold otp_mod_decrypt
  rw [if_neg (by omega), otpLoop_dec c p hc hp h]

theorem isDigitStr_zipWith_enc (m p : List Char) (hm : IsDigitStr m) (hp : IsDigitStr p) :
    IsDigitStr (List.zipWith encDigitChar m p) := by
  induction m generalizing p with
  | nil => intro x hx; simp at hx
  | cons c m ih =>
    cases p with
    | nil => intro x hx; simp at hx
    | cons q p =>
      intro x hx
      rcases (by simpa using hx : x = encDigitChar c q ∨ x ∈ List.zipWith encDigitChar m p) with
        rfl | hx'
      · exact encDigitChar_isDigit (hm c (List.mem_cons_self _ _)) (hp q (List.mem_cons_self _ _))
      · exact ih p (fun y hy => hm y (List.mem_cons_of_mem _ hy))
          (fun y hy => hp y (List.mem_cons_of_mem _ hy)) x hx'

theorem isDigitStr_zipWith_dec (c p : List Char) (hc : IsDigitStr c) (hp : IsDigitStr p) :
    IsDigitStr (List.zipWith decDigitChar c p) := by
  induction c generalizing p with
  | nil => intro x hx; simp at hx
  | cons a c ih =>
    cases p with
    | nil => intro x hx; simp at hx
    | cons q p =>
      intro x hx
      rcases (by simpa using hx : x = decDigitChar a q ∨ x ∈ List.zipWith decDigitChar c p) with
        rfl | hx'
      · exact decDigitChar_isDigit (hc a (List.mem_cons_self _ _)) (hp q (List.mem_cons_self _ _))
      · exact ih p (fun y hy => hc y (List.mem_cons_of_mem _ hy))
          (fun y hy => hp y (List.mem_cons_of_mem _ hy)) x hx'

theorem zipWith_dec_enc (m p : List Char) (hm : IsDigitStr m) (hp : IsDigitStr p)
    (h : m.length ≤ p.length) :
    List.zipWith decDigitChar (List.zipWith encDigitChar m p) p = m := by
  induction m generalizing p with
  | nil => simp
  | cons c m ih =>
    cases p with
    | nil => simp at h
    | cons q p =>
      have hc : (digitVal c).isSome = true := hm c (List.mem_cons_self _ _)
      have hq : (digitVal q).isSome = true := hp q (List.mem_cons_self _ _)
      simp only [List.zipWith_cons_cons]
      rw [decDigitChar_encDigitChar hc hq,
        ih p (fun x hx => hm x (List.mem_cons_of_mem _ hx))
          (fun x hx => hp x (List.mem_cons_of_mem _ hx)) (by simpa using h)]

theorem zipWith_take_right (f : Char → Char → Char) (m p : List Char)
    (h : m.length ≤ p.length) :
    List.zipWith f m p = List.zipWith f m (p.take m.length) := by
  induction m generalizing p with
  | nil => simp
  | cons c m ih =>
    cases p with
    | nil => simp at h
    | cons q p => simp [ih p (by simpa using h)]

/-! ## Claims C3, C4, C9 — the OTP cipher contract -/

/-- **C3.** For all digit strings `m` and `p` with `len(p) >= len(m)`,
`otp_mod_decrypt(otp_mod_encrypt(m, p), p) == m`: the OTP encrypt/decrypt
pair round-trips whenever the pad is at least as long as the message. -/
theorem otp_encrypt_decrypt_roundtrip (m p : List Char) (hm : IsDigitStr m)
    (hp : IsDigitStr p) (h : m.length ≤ p.length) :
    (otp_mod_encrypt m p).bind (fun c => otp_mod_decrypt c p) = .ok m := by
  rw [otp_mod_encrypt_eq m p hm hp h]
  show otp_mod_decrypt (List.zipWith encDigitChar m p) p = .ok m
  rw [otp_mod_decrypt_eq _ p (isDigitStr_zipWith_enc m p hm hp) hp
    (by rw [List.length_zipWith]; omega)]
  rw [zipWith_dec_enc m p hm hp h]

theorem otp_encrypt_decrypt_roundtrip_witness :
    (otp_mod_encrypt ['1', '2', '3'] ['4', '5', '6', '7']).bind
      (fun c => otp_mod_decrypt c ['4', '5', '6', '7']) = .ok ['1', '2', '3'] :=
  otp_encrypt_decrypt_roundtrip _ _ (by decide) (by decide) (by decide)

/-- **C4.** For all digit strings, `otp_mod_encrypt` and `otp_mod_decrypt`
fail with the pad-too-short error exactly when the pad is shorter than the
input; with a pad at least as long they succeed, and the result depends only
on the first `len(input)` pad digits (the pad is never wrapped or reused). -/
theorem otp_pad_length_contract (m p : List Char) (hm : IsDigitStr m)
    (hp : IsDigitStr p) :
    (p.length < m.length →
      otp_mod_encrypt m p = .error (.padTooShort p.length m.length) ∧
      otp_mod_decrypt m p = .error (.padTooShort p.length m.length)) ∧
    (m.length ≤ p.length →
      otp_mod_encrypt m p = .ok (List.zipWith encDigitChar m p) ∧
      otp_mod_decrypt m p = .ok (List.zipWith decDigitChar m p) ∧
      otp_mod_encrypt m p = otp_mod_encrypt m (p.take m.length) ∧
      otp_mod_decrypt m p = otp_mod_decrypt m (p.take m.length)) := by
  constructor
  · intro hlt
    constructor
    · unfold otp_mod_encrypt
      rw [if_pos hlt]
    · unfold otp_mod_decrypt
      rw [if_pos hlt]
  · intro hle
    have htake : IsDigitStr (p.take m.length) :=
      fun x hx => hp x (List.take_subset _ _ hx)
    have hlen : m.length ≤ (p.take m.length).length := by
      rw [List.length_take]
      omega
    refine ⟨otp_mod_encrypt_eq m p hm hp hle, otp_mod_decrypt_eq m p hm hp hle, ?_, ?_⟩
    · rw [otp_mod_encrypt_eq m p hm hp hle, otp_mod_encrypt_eq m _ hm htake hlen,
        zipWith_take_right encDigitChar m p hle]
    · rw [otp_mod_decrypt_eq m p hm hp hle, otp_mod_decrypt_eq m _ hm htake hlen,
        zipWith_take_right decDigitChar m p hle]

theorem otp_pad_length_contract_witness :
    otp_mod_encrypt ['1', '2', '3'] ['4', '5'] = .error (.padTooShort 2 3) ∧
    otp_mod_decrypt ['1', '2', '3'] ['4', '5'] = .error (.padTooShort 2 3) :=
  (otp_pad_length_contract ['1', '2', '3'] ['4', '5'] (by decide) (by decide)).1
    (by decide)

/-- **C9.** On digit strings with a sufficiently long pad, `otp_mod_encrypt`
returns a digit string of the message's length whose `i`-th digit is
`(m_i + p_i) mod 10`, and `otp_mod_decrypt` returns a digit string of the
ciphertext's length whose `i`-th digit is `(c_i - p_i) mod 10` with the
modulo normalised into `[0, 9]` (the output consists of digit characters,
never a negative value). -/
theorem otp_pointwise_formulas (m p : List Char) (hm : IsDigitStr m)
    (hp : IsDigitStr p) (h : m.length ≤ p.length) :
    (otp_mod_encrypt m p = .ok (List.zipWith encDigitChar m p) ∧
     (List.zipWith encDigitChar m p).length = m.length ∧
     IsDigitStr (List.zipWith encDigitChar m p) ∧
     ∀ (i : Nat) (mc pc : Char), m[i]? = some mc → p[i]? = some pc →
       (List.zipWith encDigitChar m p)[i]? =
         some (Char.ofNat (48 + ((mc.toNat - 48) + (pc.toNat - 48)) % 10))) ∧
    (otp_mod_decrypt m p = .ok (List.zipWith decDigitChar m p) ∧
     (List.zipWith decDigitChar m p).length = m.length ∧
     IsDigitStr (List.zipWith decDigitChar m p) ∧
     ∀ (i : Nat) (cc pc : Char), m[i]? = some cc → p[i]? = some pc →
       (List.zipWith decDigitChar m p)[i]? =
         some (Char.ofNat
           (48 + ((((cc.toNat : Int) - 48) - ((pc.toNat : Int) - 48)) % 10).toNat))) := by
  refine ⟨⟨otp_mod_encrypt_eq m p hm hp h, ?_, isDigitStr_zipWith_enc m p hm hp, ?_⟩,
    ⟨otp_mod_decrypt_eq m p hm hp h, ?_, isDigitStr_zipWith_dec m p hm hp, ?_⟩⟩
  · rw [List.length_zipWith]
    omega
  · intro i mc pc hmc hpc
    rw [List.getElem?_zipWith, hmc, hpc]
    rfl
  · rw [List.length_zipWith]
    omega
  · intro i cc pc hcc hpc
    rw [List.getElem?_zipWith, hcc, hpc]
    rfl

theorem otp_pointwise_formulas_witness :
    otp_mod_encrypt ['9', '5'] ['8', '7'] =
      .ok (List.zipWith encDigitChar ['9', '5'] ['8', '7']) ∧
    (List.zipWith encDigitChar ['9', '5'] ['8', '7']).length = 2 ∧
    otp_mod_decrypt ['9', '5'] ['8', '7'] =
      .ok (List.zipWith decDigitChar ['9', '5'] ['8', '7']) :=
  ⟨((otp_pointwise_formulas ['9', '5'] ['8', '7'] (by decide) (by decide)
      (by decide)).1).1,
   ((otp_pointwise_formulas ['9', '5'] ['8', '7'] (by decide) (by decide)
      (by decide)).1).2.1,
   ((otp_pointwise_formulas ['9', '5'] ['8', '7'] (by decide) (by decide)
      (by decide)).2).1⟩


/-! ## Claim C8 — the letter/digit mapping (`crypt.LETTER_TO_DIGIT`,
`decode.DecodeWindow._decode_character`) -/

/-- Python `f"{n:02d}"` for `n ≤ 99`: the two decimal digit characters of
`n`. -/
def twoDigitStr (n : Nat) : List Char :=
  [Char.ofNat (48 + n / 10), Char.ofNat (48 + n % 10)]

/-- `crypt.LETTER_TO_DIGIT`: the dict comprehension
`{chr(i + 65): f"{i + 1:02d}" for i in range(26)}` followed by the entry
`' ' -> "00"`, kept in insertion order as an association list. -/
def LETTER_TO_DIGIT : List (Char × List Char) :=
  ((List.range 26).map fun i => (Char.ofNat (i + 65), twoDigitStr (i + 1))) ++
    [(' ', ['0', '0'])]

/-- Dictionary access `LETTER_TO_DIGIT.get(c)` (all keys are distinct, so
first-match lookup agrees with the Python dict). -/
def letter_to_digit_get? (c : Char) : Option (List Char) :=
  (LETTER_TO_DIGIT.find? (fun kv => kv.1 == c)).map (·.2)

/-- The inverted dictionary `{v: k for k, v in crypt.LETTER_TO_DIGIT.items()}`
accessed with `.get(formatted_digits, "?")` — all values are distinct, so
first-match lookup agrees with the Python dict built by that comprehension. -/
def digit_to_letter_get (code : List Char) : Char :=
  match LETTER_TO_DIGIT.find? (fun kv => kv.2 == code) with
  | some kv => kv.1
  | none => '?'

/-- `decode.DecodeWindow._format_digit_pair`. -/
def format_digit_pair (digits : List Char) : List Char :=
  if digits.length = 1 then '0' :: digits
  else if digits.length > 2 then digits.take 2
  else digits

/-- `decode.DecodeWindow._decode_character(pad_pair, cipher_pair)`: OTP-decrypt
the pair, format it to two digits, look it up in the inverted mapping with
default `"?"`; any exception also yields `"?"`. -/
def decode_character (pad_pair cipher_pair : List Char) : Char :=
  match otp_mod_decrypt cipher_pair pad_pair with
  | .error _ => '?'
  | .ok ds => digit_to_letter_get (format_digit_pair ds)

/-- **C8.** The letter/digit mapping is the fixed bijection `A..Z → "01".."26"`,
space `→ "00"` (distinct codes, so a bijection onto its codes); decoding the
code of every mapped character yields that character back; every other
two-digit code decodes to the sentinel `'?'`; and the full
`_decode_character` path (shown with the identity pad `"00"`) never raises —
it is a total function agreeing with the mapping lookup. -/
theorem letter_digit_mapping_contract :
    (∀ i : Fin 26,
      letter_to_digit_get? (Char.ofNat (65 + i.val)) = some (twoDigitStr (i.val + 1))) ∧
    letter_to_digit_get? ' ' = some ['0', '0'] ∧
    (LETTER_TO_DIGIT.map Prod.snd).Nodup ∧
    (∀ n : Fin 27, digit_to_letter_get (twoDigitStr n.val) =
      if n.val = 0 then ' ' else Char.ofNat (64 + n.val)) ∧
    (∀ n : Fin 100, 27 ≤ n.val → digit_to_letter_get (twoDigitStr n.val) = '?') ∧
    (∀ n : Fin 100,
      decode_character ['0', '0'] (twoDigitStr n.val) =
        digit_to_letter_get (twoDigitStr n.val)) := by
  decide

/-! ## The mission record and store (`missions.py`)

Byte strings are `List Nat`.  The AES-GCM primitive of the external
`cryptography` library is abstracted as an `AeadScheme`; the random values
the source draws (`generate_mission_id()`, `generate_pad()`, `os.urandom(12)`
nonces) are explicit parameters.  The missions directory is a list of
`(filename, content)` pairs; `Option` of it distinguishes a missing
directory. -/

/-- An authenticated-encryption scheme standing for `AESGCM`:
`enc key nonce plaintext` is the ciphertext (tag included), and
`dec key nonce ciphertext` returns `none` where `AESGCM.decrypt` raises
(`InvalidTag`, bad nonce, ...). -/
structure AeadScheme where
  enc : List Nat → List Nat → List Nat → List Nat
  dec : List Nat → List Nat → List Nat → Option (List Nat)

/-- The key-length check the `AESGCM(key)` constructor performs: it raises
`ValueError` unless the key is 16, 24 or 32 bytes. -/
def AESGCM_valid_key (key : List Nat) : Bool :=
  key.length == 16 || key.length == 24 || key.length == 32

/-- `str.encode('utf-8')`, modelled at the ASCII level (every string this
program encrypts — uppercase-alphanumeric ids, digit/space/newline pad rows —
is ASCII, where UTF-8 is the identity byte map). -/
def utf8Encode (s : List Char) : List Nat := s.map Char.toNat

/-- `bytes.decode('utf-8')`, modelled at the ASCII level: a non-ASCII byte
makes decoding fail (standing for `UnicodeDecodeError`, which the decrypt
paths catch). -/
def utf8Decode : List Nat → Option (List Char)
  | [] => some []
  | b :: rest =>
    if b < 128 then (utf8Decode rest).map (fun cs => Char.ofNat b :: cs)
    else none

/-- The standard base64 alphabet. -/
def b64Alphabet : List Char :=
  "ABCDEFGHIJKLMNOPQRSTUVWXYZabcdefghijklmnopqrstuvwxyz0123456789+/".data

/-- The character for a sextet value. -/
def b64Char (n : Nat) : Char := b64Alphabet.getD n 'A'

/-- The sextet value of an alphabet character. -/
def b64Index? (c : Char) : Option Nat := b64Alphabet.findIdx? (fun x => x == c)

/-- `base64.b64encode`: three bytes become four sextet characters, a trailing
remainder of one or two bytes is padded with `'='`. -/
def b64encode : List Nat → List Char
  | [] => []
  | [a] => [b64Char (a / 4), b64Char (a % 4 * 16), '=', '=']
  | [a, b] => [b64Char (a / 4), b64Char (a % 4 * 16 + b / 16), b64Char (b % 16 * 4), '=']
  | a :: b :: c :: rest =>
    b64Char (a / 4) :: b64Char (a % 4 * 16 + b / 16) ::
      b64Char (b % 16 * 4 + c / 64) :: b64Char (c % 64) :: b64encode rest

/-- Reassemble bytes from decoded sextets: complete groups of four, with a
final group of two or three sextets for a padded tail (a single leftover
sextet is invalid). -/
def b64DecodeGroups : List Nat → Option (List Nat)
  | [] => some []
  | [_] => none
  | [s1, s2] => some [s1 * 4 + s2 / 16]
  | [s1, s2, s3] => some [s1 * 4 + s2 / 16, s2 % 16 * 16 + s3 / 4]
  | s1 :: s2 :: s3 :: s4 :: rest =>
    (b64DecodeGroups rest).map
      (fun bs => (s1 * 4 + s2 / 16) :: (s2 % 16 * 16 + s3 / 4) :: (s3 % 4 * 64 + s4) :: bs)

/-- `base64.b64decode` (default non-validating mode): characters outside the
alphabet are discarded, the remaining length must be a multiple of four,
`'='` may only pad the end (at most two), and the sextets are reassembled
into bytes; `none` stands for `binascii.Error`. -/
def b64decode (s : List Char) : Option (List Nat) :=
  let t := s.filter (fun c => (b64Index? c).isSome || c == '=')
  if t.length % 4 ≠ 0 then none
  else
    let dataChars := t.takeWhile (fun c => c != '=')
    if (t.drop dataChars.length).any (fun c => c != '=') then none
    else if t.length - dataChars.length > 2 then none
    else
      match dataChars.mapM b64Index? with
      | none => none
      | some sextets => b64DecodeGroups sextets

/-- The filename transport substitution applied after encrypting an id:
`.replace('/', '_').replace('+', '-').replace('=', '')`. -/
def toFilenameSafe (s : List Char) : List Char :=
  ((s.map (fun c => if c == '/' then '_' else c)).map
    (fun c => if c == '+' then '-' else c)).filter (fun c => c != '=')

/-- The inverse substitution applied before decrypting an id:
`.replace('_', '/').replace('-', '+')`. -/
def fromFilenameSafe (s : List Char) : List Char :=
  (s.map (fun c => if c == '_' then '/' else c)).map (fun c => if c == '-' then '+' else c)

/-- Restore stripped base64 padding: `'=' * (4 - len % 4)` when
`len % 4 != 0`. -/
def restorePadding (s : List Char) : List Char :=
  if s.length % 4 = 0 then s else s ++ List.replicate (4 - s.length % 4) '='

/-- `nonce ‖ ciphertext`, base64-encoded — the payload ciphertext format
produced by `_encrypt_mission_data`. -/
def sealData (A : AeadScheme) (key nonce : List Nat) (pt : List Char) : List Char :=
  b64encode (nonce ++ A.enc key nonce (utf8Encode pt))

/-- `nonce ‖ ciphertext`, base64-encoded with the filename transport
substitution — the encrypted-id format produced by `_encrypt_mission_id`. -/
def sealTransport (A : AeadScheme) (key nonce : List Nat) (pt : List Char) : List Char :=
  toFilenameSafe (b64encode (nonce ++ A.enc key nonce (utf8Encode pt)))

/-- The `Mission` object: `id`, `encrypted_id`, `data` and the
`_is_decrypted` flag (the `str`/`bytes` distinction of `data` is collapsed,
base64 text being ASCII). -/
structure Mission where
  id : List Char
  encrypted_id : Option (List Char)
  data : List Char
  is_decrypted : Bool
  deriving DecidableEq

/-- `Mission._decrypt_mission_id`: undo the filename transport, restore
padding, base64-decode, split `nonce(12) ‖ ciphertext`, AEAD-decrypt, decode
UTF-8, and replace `id`; any failure is caught and leaves the record as it
was. -/
def decrypt_mission_id (A : AeadScheme) (key : List Nat) (m : Mission) :
    Mission × Bool :=
  match b64decode (restorePadding (fromFilenameSafe m.id)) with
  | none => (m, false)
  | some encrypted_bytes =>
    match A.dec key (encrypted_bytes.take 12) (encrypted_bytes.drop 12) with
    | none => (m, false)
    | some pt =>
      match utf8Decode pt with
      | none => (m, false)
      | some decrypted_filename => ({ m with id := decrypted_filename }, true)

/-- `Mission._decrypt_mission_data`: base64-decode `data`, split
`nonce(12) ‖ ciphertext`, AEAD-decrypt, decode UTF-8, and replace `data`;
any failure is caught and leaves the record as it was. -/
def decrypt_mission_data (A : AeadScheme) (key : List Nat) (m : Mission) :
    Mission × Bool :=
  match b64decode m.data with
  | none => (m, false)
  | some encrypted_bytes =>
    match A.dec key (encrypted_bytes.take 12) (encrypted_bytes.drop 12) with
    | none => (m, false)
    | some plaintext =>
      match utf8Decode plaintext with
      | none => (m, false)
      | some s => ({ m with data := s }, true)

/-- `Mission.decrypt(key)`: first `self.encrypted_id = self.id`
(unconditionally), then the already-decrypted early return, then
`AESGCM(key)` (whose `ValueError` on a bad key length is caught, yielding
`False`), then id decryption, then data decryption, and only after both
succeed `_is_decrypted = True`. -/
def Mission.decrypt (A : AeadScheme) (key : List Nat) (m : Mission) :
    Mission × Bool :=
  let m1 := { m with encrypted_id := some m.id }
  if m1.is_decrypted then (m1, true)
  else if !AESGCM_valid_key key then (m1, false)
  else
    match decrypt_mission_id A key m1 with
    | (m2, false) => (m2, false)
    | (m2, true) =>
      match decrypt_mission_data A key m2 with
      | (m3, false) => (m3, false)
      | (m3, true) => ({ m3 with is_decrypted := true }, true)

/-- `Mission._encrypt_mission_data` with its random nonce made explicit. -/
def encrypt_mission_data (A : AeadScheme) (key nonce : List Nat) (m : Mission) :
    Mission :=
  { m with data := sealData A key nonce m.data }

/-- `Mission._encrypt_mission_id` with its random nonce made explicit: note
the source stores the CURRENT (plaintext) `self.id` into `self.encrypted_id`
before overwriting `self.id` with the encrypted filename. -/
def encrypt_mission_id (A : AeadScheme) (key nonce : List Nat) (m : Mission) :
    Mission :=
  { m with encrypted_id := some m.id, id := sealTransport A key nonce m.id }

/-- `Mission.encrypt(key)`: data first, then id, then `_is_decrypted = False`;
`none` stands for the `RuntimeError` raised when `AESGCM(key)` rejects the
key length. -/
def Mission.encrypt (A : AeadScheme) (key data_nonce id_nonce : List Nat)
    (m : Mission) : Option Mission :=
  if !AESGCM_valid_key key then none
  else
    some { encrypt_mission_id A key id_nonce (encrypt_mission_data A key data_nonce m) with
            is_decrypted := false }

/-- The missions directory as `(filename, content)` pairs. -/
abbrev FileStore := List (List Char × List Char)

/-- Writing a file: replace the entry with this name, or append a new one. -/
def fsWrite (fs : FileStore) (name content : List Char) : FileStore :=
  if fs.any (fun e => e.1 == name) then
    fs.map (fun e => if e.1 == name then (name, content) else e)
  else fs ++ [(name, content)]

/-- `Mission._save_to_file`: the target filename is
`self.encrypted_id if self.encrypted_id else self.id` (Python truthiness:
`None` and the empty string both fall back to `self.id`), suffixed `.txt`. -/
def save_to_file (m : Mission) (fs : FileStore) : FileStore :=
  let filename := match m.encrypted_id with
    | some e => if e.isEmpty then m.id else e
    | none => m.id
  fsWrite fs (filename ++ ".txt".data) m.data

/-- `missions.update_data(new_data, key)`: set `data`, re-encrypt, save,
decrypt again (its result is ignored), return `True`; an exception anywhere
is caught and yields `False`. -/
def update_data (A : AeadScheme) (key data_nonce id_nonce : List Nat)
    (m : Mission) (new_data : List Char) (fs : FileStore) :
    Mission × FileStore × Bool :=
  let m1 := { m with data := new_data }
  match Mission.encrypt A key data_nonce id_nonce m1 with
  | none => (m1, fs, false)
  | some m2 =>
    let fs1 := save_to_file m2 fs
    match Mission.decrypt A key m2 with
    | (m3, _) => (m3, fs1, true)

/-- `missions.add_mission(key)` with the generated mission id, pad rows and
the two nonces made explicit: build the record, set `data` to the
newline-joined pad, encrypt, and write `data` under `f"{mission.id}.txt"`
(the post-encryption `id`, i.e. the transport-encoded ciphertext); a missing
directory is created; `none` stands for the re-raised `RuntimeError`. -/
def add_mission (A : AeadScheme) (key : List Nat) (mission_id : List Char)
    (pad : List (List Char)) (data_nonce id_nonce : List Nat)
    (missions_dir : Option FileStore) : Option (Mission × FileStore) :=
  let fs := missions_dir.getD []
  let m : Mission :=
    { id := mission_id, encrypted_id := none,
      data := List.intercalate ['\n'] pad, is_decrypted := false }
  match Mission.encrypt A key data_nonce id_nonce m with
  | none => none
  | some m1 => some (m1, fsWrite fs (m1.id ++ ".txt".data) m1.data)

/-- A directory entry as `iterdir` yields it. -/
structure DirEntry where
  name : List Char
  isDir : Bool
  content : List Char
  deriving DecidableEq

/-- The index of the last `'.'` of a filename, ignoring a leading dot
(`pathlib` does not treat `".hidden"` as an extension). -/
def lastDotIdx? (s : List Char) : Option Nat :=
  ((List.range s.length).filter (fun i => s.getD i ' ' == '.' && i != 0)).getLast?

/-- `Path.stem` for an ordinary `name.ext` filename. -/
def fileStem (s : List Char) : List Char :=
  match lastDotIdx? s with
  | some i => s.take i
  | none => s

/-- `Path.suffix` for an ordinary `name.ext` filename. -/
def fileSuffix (s : List Char) : List Char :=
  match lastDotIdx? s with
  | some i => s.drop i
  | none => []

/-- `missions.get_missions(key)`: a missing directory yields the empty list;
otherwise every non-directory `.txt` entry (suffix compared lowercased) is
loaded into a `Mission` named by the file stem, decrypted, and kept only if
decryption reports success. -/
def get_missions (A : AeadScheme) (key : List Nat)
    (missions_dir : Option (List DirEntry)) : List Mission :=
  match missions_dir with
  | none => []
  | some entries =>
    entries.foldl
      (fun missions item =>
        if item.isDir || (fileSuffix item.name).map Char.toLower != ".txt".data then
          missions
        else
          let m : Mission :=
            { id := fileStem item.name, encrypted_id := none,
              data := item.content, is_decrypted := false }
          match Mission.decrypt A key m with
          | (m1, true) => missions ++ [m1]
          | (_, false) => missions)
      []

/-- A concrete toy AEAD instance used to evaluate the model on explicit
inputs: the "ciphertext" is the plaintext followed by a one-byte tag derived
from key and nonce, and decryption checks the tag. -/
def toyAead : AeadScheme where
  enc := fun key nonce pt => pt ++ [(key.sum + nonce.sum) % 256]
  dec := fun key nonce ct =>
    match ct.getLast? with
    | none => none
    | some t => if t == (key.sum + nonce.sum) % 256 then some ct.dropLast else none

/-- A 16-byte (valid-length) key of zeros. -/
def key16 : List Nat := List.replicate 16 0

/-- A 10-byte (invalid-length) key of zeros. -/
def key10 : List Nat := List.replicate 10 0

/-- A 12-byte all-zero nonce. -/
def nonce0 : List Nat := List.replicate 12 0

/-! ### Frame lemmas for the decryption helpers -/

theorem decrypt_mission_id_frame (A : AeadScheme) (key : List Nat) (m : Mission) :
    ((decrypt_mission_id A key m).1.data = m.data ∧
     (decrypt_mission_id A key m).1.encrypted_id = m.encrypted_id ∧
     (decrypt_mission_id A key m).1.is_decrypted = m.is_decrypted) ∧
    ((decrypt_mission_id A key m).2 = false → (decrypt_mission_id A key m).1 = m) := by
  unfold decrypt_mission_id
  rcases h1 : b64decode (restorePadding (fromFilenameSafe m.id)) with _ | eb <;> simp [h1]
  rcases h2 : A.dec key (eb.take 12) (eb.drop 12) with _ | pt <;> simp [h2]
  rcases h3 : utf8Decode pt with _ | s <;> simp [h3]

theorem decrypt_mission_data_frame (A : AeadScheme) (key : List Nat) (m : Mission) :
    ((decrypt_mission_data A key m).1.id = m.id ∧
     (decrypt_mission_data A key m).1.encrypted_id = m.encrypted_id ∧
     (decrypt_mission_data A key m).1.is_decrypted = m.is_decrypted) ∧
    ((decrypt_mission_data A key m).2 = false → (decrypt_mission_data A key m).1 = m) := by
  unfold decrypt_mission_data
  rcases h1 : b64decode m.data with _ | eb <;> simp [h1]
  rcases h2 : A.dec key (eb.take 12) (eb.drop 12) with _ | pt <;> simp [h2]
  rcases h3 : utf8Decode pt with _ | s <;> simp [h3]

/-! ### Concrete records used to evaluate the model -/

/-- A stored id that decrypts correctly under `toyAead` with `key16`:
the transport encoding of `nonce0 ‖ toyAead.enc key16 nonce0 "A"`. -/
def encIdC1 : List Char := "AAAAAAAAAAAAAAAAQQA".data

/-- A freshly loaded record whose id decrypts but whose payload does not
(empty `data` fails base64→AEAD framing). -/
def mC1 : Mission :=
  { id := encIdC1, encrypted_id := none, data := [], is_decrypted := false }

/-- What `decrypt` actually leaves behind on `mC1`: the id already replaced
by its plaintext, `encrypted_id` overwritten, yet the call reports failure. -/
def mC1' : Mission :=
  { id := ['A'], encrypted_id := some encIdC1, data := [], is_decrypted := false }

/-- A record holding a decrypted view, as produced by a successful
`decrypt`: plaintext `id`, the stored name in `encrypted_id`. -/
def mDecView : Mission :=
  { id := "PLAIN".data, encrypted_id := some ("STOREDENC".data),
    data := "OLDPAD".data, is_decrypted := true }

/-- A record in the encrypted state. -/
def mEnc : Mission :=
  { id := "SOMENAME".data, encrypted_id := none,
    data := "QQ==".data, is_decrypted := false }

/-! ## Claim C1 — what a failed `decrypt` leaves behind -/

/-- **C1 (counterexample).** A record whose identifier decryption succeeds
but whose payload decryption fails: `decrypt` returns `false`, yet both `id`
(already replaced by the decrypted identifier) and `encrypted_id`
(unconditionally overwritten) differ from their pre-call values — the
failure is not atomic and the record is not left unchanged. -/
theorem decrypt_failure_mutates_record :
    (Mission.decrypt toyAead key16 mC1).2 = false ∧
    (Mission.decrypt toyAead key16 mC1).1.id ≠ mC1.id ∧
    (Mission.decrypt toyAead key16 mC1).1.encrypted_id ≠ mC1.encrypted_id := by
  decide

/-- **C1 (amended).** When `decrypt` returns `false` the payload `data` and
the decrypted-state flag are unchanged (the record stays Encrypted), but
`encrypted_id` is always set to the pre-call `id`, and `id` itself may
already have been replaced by the decrypted identifier when only the payload
step failed. -/
theorem decrypt_failure_frame (A : AeadScheme) (key : List Nat) (m m' : Mission)
    (h : Mission.decrypt A key m = (m', false)) :
    m'.data = m.data ∧ m'.is_decrypted = false ∧ m'.encrypted_id = some m.id := by
  unfold Mission.decrypt at h
  cases hd : m.is_decrypted with
  | true => simp [hd] at h
  | false =>
    simp only [hd] at h
    cases hk : AESGCM_valid_key key with
    | false =>
      simp [hk] at h
      subst h
      simp
    | true =>
      simp only [hk, Bool.not_true, Bool.false_eq_true, if_false, reduceIte] at h
      rcases hid : decrypt_mission_id A key
          { id := m.id, encrypted_id := some m.id, data := m.data,
            is_decrypted := false } with ⟨m2, ok1⟩
      rw [hid] at h
      obtain ⟨⟨hd1, hd2, hd3⟩, hdb⟩ :=
        decrypt_mission_id_frame A key
          { id := m.id, encrypted_id := some m.id, data := m.data,
            is_decrypted := false }
      rw [hid] at hd1 hd2 hd3 hdb
      simp only at hd1 hd2 hd3
      cases ok1 with
      | false =>
        simp at h hdb
        subst h
        rw [hdb]
        simp
      | true =>
        simp only at h
        rcases hdd : decrypt_mission_data A key m2 with ⟨m3, ok2⟩
        rw [hdd] at h
        obtain ⟨⟨he1, he2, he3⟩, heb⟩ := decrypt_mission_data_frame A key m2
        rw [hdd] at he1 he2 he3 heb
        cases ok2 with
        | false =>
          simp at h heb
          subst h
          rw [heb]
          exact ⟨hd1, hd3, hd2⟩
        | true => simp at h

theorem decrypt_failure_frame_witness :
    mC1'.data = mC1.data ∧ mC1'.is_decrypted = false ∧
      mC1'.encrypted_id = some mC1.id :=
  decrypt_failure_frame toyAead key16 mC1 mC1' (by decide)

/-! ## Claim C5 — `decrypt` on an already-decrypted record -/

/-- **C5 (counterexample).** On an already-decrypted record `decrypt` does
return `true`, but it is not field-preserving: `encrypted_id` is overwritten
with the current (plaintext) `id` before the early return. -/
theorem decrypt_on_decrypted_mutates_encrypted_id :
    (Mission.decrypt toyAead key16 mDecView).2 = true ∧
    (Mission.decrypt toyAead key16 mDecView).1.encrypted_id ≠ mDecView.encrypted_id := by
  decide

/-- **C5 (amended).** On a record in the Decrypted state, `decrypt` returns
`true` for every key and scheme and leaves `id`, `data` and the state flag
unchanged, but sets `encrypted_id := id` (the plaintext id) before returning. -/
theorem decrypt_already_decrypted_noop (A : AeadScheme) (key : List Nat)
    (m : Mission) (h : m.is_decrypted = true) :
    Mission.decrypt A key m = ({ m with encrypted_id := some m.id }, true) := by
  unfold Mission.decrypt
  simp [h]

theorem decrypt_already_decrypted_noop_witness :
    Mission.decrypt toyAead key16 mDecView =
      ({ mDecView with encrypted_id := some mDecView.id }, true) :=
  decrypt_already_decrypted_noop toyAead key16 mDecView (by decide)

/-! ## Claim C7 — `decrypt` with an invalid key length -/

/-- **C7 (counterexample).** "For every record" fails: on a record already in
the Decrypted state, `decrypt` with a 10-byte key returns `true` (the
early return precedes the key-length check), not a failure. -/
theorem decrypt_invalid_key_decrypted_returns_true :
    (Mission.decrypt toyAead key10 mDecView).2 = true := by
  decide

/-- **C7 (amended).** On a record not already decrypted, `decrypt` with a key
whose length is not 16/24/32 returns `false` without raising: the result is
the same for every scheme `A` (no nonce handling or AEAD call can influence
it), the state flag is untouched, and only `encrypted_id` is set to the
pre-call id. -/
theorem decrypt_invalid_key_length (A : AeadScheme) (key : List Nat)
    (m : Mission) (hk : AESGCM_valid_key key = false) (hd : m.is_decrypted = false) :
    Mission.decrypt A key m = ({ m with encrypted_id := some m.id }, false) := by
  unfold Mission.decrypt
  simp [hk, hd]

theorem decrypt_invalid_key_length_witness :
    Mission.decrypt toyAead key10 mEnc =
      ({ mEnc with encrypted_id := some mEnc.id }, false) :=
  decrypt_invalid_key_length toyAead key10 mEnc (by decide) (by decide)

/-! ## Claim C6 — what `add_mission` returns -/

/-- The pad rows used in the concrete `add_mission` runs. -/
def padC6 : List (List Char) := ["12345 67890".data]

/-- **C6 (counterexample).** A concrete `add_mission` run: the returned
record is NOT in the Decrypted state and its payload is NOT the
newline-joined plaintext pad rows — `add_mission` encrypts and never
decrypts again, so the caller gets the ciphertext view. -/
theorem add_mission_returns_encrypted_state :
    (add_mission toyAead key16 ("F1YNE".data) padC6 nonce0 nonce0 none).map
      (fun r => r.1.is_decrypted) = some false ∧
    (add_mission toyAead key16 ("F1YNE".data) padC6 nonce0 nonce0 none).map
      (fun r => r.1.data) ≠ some (List.intercalate ['\n'] padC6) := by
  decide

/-- **C6 (amended).** For every valid key, `add_mission` builds the record
from the freshly generated id and pad rows, encrypts it (payload first, then
id), persists the ciphertext under the encrypted filename plus `.txt`, and
returns the record in the ENCRYPTED state: flag unset, payload the sealed
ciphertext of the newline-joined rows, id the transport-encoded id
ciphertext, `encrypted_id` the plaintext id — a caller wanting the plaintext
view must call `decrypt` afterwards. -/
theorem add_mission_spec (A : AeadScheme) (key : List Nat) (mission_id : List Char)
    (pad : List (List Char)) (nd ni : List Nat) (dir : Option FileStore)
    (hk : AESGCM_valid_key key = true) :
    add_mission A key mission_id pad nd ni dir =
      some ({ id := sealTransport A key ni mission_id,
              encrypted_id := some mission_id,
              data := sealData A key nd (List.intercalate ['\n'] pad),
              is_decrypted := false },
        fsWrite (dir.getD []) (sealTransport A key ni mission_id ++ ".txt".data)
          (sealData A key nd (List.intercalate ['\n'] pad))) := by
  unfold add_mission Mission.encrypt encrypt_mission_id encrypt_mission_data
  simp [hk]

theorem add_mission_spec_witness :
    add_mission toyAead key16 ("F1YNE".data) padC6 nonce0 nonce0 none =
      some ({ id := sealTransport toyAead key16 nonce0 ("F1YNE".data),
              encrypted_id := some ("F1YNE".data),
              data := sealData toyAead key16 nonce0 (List.intercalate ['\n'] padC6),
              is_decrypted := false },
        fsWrite [] (sealTransport toyAead key16 nonce0 ("F1YNE".data) ++ ".txt".data)
          (sealData toyAead key16 nonce0 (List.intercalate ['\n'] padC6))) :=
  add_mission_spec toyAead key16 ("F1YNE".data) padC6 nonce0 nonce0 none (by decide)

/-! ## Claim C2 — the on-disk filename -/

/-- A record holding a decrypted view about to be re-persisted through
`update_data`. -/
def mC2 : Mission :=
  { id := "PLAIN".data, encrypted_id := some ("STOREDENC".data),
    data := "OLDPAD".data, is_decrypted := true }

/-- **C2 (code bug).** At creation, `add_mission` does name the file by the
transport-encoded id ciphertext (second and third conjuncts: the written
filename is the encoding, which differs from the plaintext id).  But on
re-persistence, `update_data`/`_save_to_file` writes the file named by the
PLAINTEXT mission id: `_encrypt_mission_id` stores the still-plaintext
`self.id` into `self.encrypted_id`, and `_save_to_file` prefers
`self.encrypted_id` — so the concrete run persists `PLAIN.txt`, leaking the
plaintext id as the filename. -/
theorem update_data_persists_plaintext_id_filename :
    ((update_data toyAead key16 nonce0 nonce0 mC2 ("NEWPAD".data) []).2.1).map
      Prod.fst = ["PLAIN.txt".data] ∧
    "PLAIN.txt".data = "PLAIN".data ++ ".txt".data ∧
    (add_mission toyAead key16 ("ABC12".data) ["11111 22222".data] nonce0 nonce0
        none).map (fun r => r.2.map Prod.fst) =
      some [sealTransport toyAead key16 nonce0 ("ABC12".data) ++ ".txt".data] ∧
    sealTransport toyAead key16 nonce0 ("ABC12".data) ≠ "ABC12".data := by
  decide

/-! ## Claim C10 — a missing missions directory -/

/-- **C10.** For every scheme and key, `get_missions` on a missing missions
directory returns the empty list (and, the model being a total function, no
exception escapes): a missing store is an empty store. -/
theorem get_missions_missing_dir (A : AeadScheme) (key : List Nat) :
    get_missions A key none = [] := rfl
